import Mathlib

/-!
Verification of the AirIO Task/Mixture dataset-provider engine, a shallow
embedding of `airio/dataset_providers.py`.

Modelling conventions:
- Python object identity (`id`/default `hash`) is modelled by an explicit
  `id : Nat` carried by every `Task` and `Mixture`; `hash(x)` is `componentId`.
- Proportions (Python floats used only through `+`, `*`, `/` on small
  dyadic values in the spec examples) are modelled as rationals.
- Preprocessing operations are opaque; `grain.BatchOperation` and
  `grain.Batch` are distinguished constructors carrying their arguments.
- External collaborators (data sources, the grain lazy-dataset engine) are
  modelled at their interface: a data source is its split list plus a
  per-split record count, and the lazy-dataset combinators build an
  explicit syntax tree (`LazyDS`) recording exactly which primitives the
  code invoked with which seeds and arguments.
- In-place mutation of a Task's preprocessor list (the only mutable state
  the module touches) is modelled by state passing: functions that may
  mutate the Task return the post-call Task alongside their result.
- The seed splitter `_split_seed` delegates to `np.random.RandomState`,
  an external library whose internals are not part of this repository;
  the development is parameterised over the splitter `sf : Nat → Nat × Nat`
  (the pair of `randint(0, 2**16 - 1)` draws, hence both components lie in
  `[0, 2**16 - 1)`), and a concrete model instance `splitSeedModel` is
  provided for closed evaluations.
-/

namespace Airio

/-- Preprocessing operations (`GrainPreprocessor`): opaque user
preprocessors and feature-converter transforms are `user`; the two grain
batching primitives the code constructs are kept distinct, with the
arguments the code passes (`grain.BatchOperation(batch_size,
drop_remainder)` and `grain.Batch(batch_size[, drop_remainder])`). -/
inductive Prep where
  | user (opId : Nat)
  | batchOperation (batchSize : Nat) (dropRemainder : Bool)
  | batchT (batchSize : Nat) (dropRemainder : Option Bool)
  deriving DecidableEq, Repr

/-- External `DataSource` interface: named splits and a per-split record
count (`num_input_examples`). -/
structure DataSource where
  splits : List String
  numInputExamples : String → Option Int

/-- `Task`: name, source, ordered preprocessor chain. The `id` field
models Python object identity (and hence the default `hash`). -/
structure Task where
  id : Nat
  name : String
  source : DataSource
  preprocessors : List Prep

/-- `ShardInfo` value object. -/
structure ShardInfo where
  index : Nat
  numShards : Nat
  deriving DecidableEq, Repr

/-- `Mixture`: id (object identity), name, and the components with their
proportions, in insertion order.  The two parallel dicts
`_tasks_or_mixtures` and `_proportions` (both keyed by component hash) are
represented by one association list of (component, proportion) pairs; this
is faithful whenever the component ids are distinct, which the validated
constructor `mkMixture` guarantees. -/
inductive Mixture where
  | mk (uid : Nat) (name : String) (comps : List ((Task ⊕ Mixture) × ℚ))

/-- A component of a Mixture: a Task or a nested Mixture. -/
abbrev Component : Type := Task ⊕ Mixture

/-- Python `hash` (object identity) of a component. -/
def componentId : Component → Nat
  | Sum.inl t => t.id
  | Sum.inr (Mixture.mk u _ _) => u

def Mixture.comps : Mixture → List (Component × ℚ)
  | Mixture.mk _ _ cs => cs

def Mixture.uid : Mixture → Nat
  | Mixture.mk u _ _ => u

def Mixture.mixName : Mixture → String
  | Mixture.mk _ n _ => n

/-- `Mixture.tasks_or_mixtures`: the components in insertion order. -/
def Mixture.tasksOrMixtures (m : Mixture) : List Component := m.comps.map Prod.fst

/-- `Mixture.total_proportion`: sum of the direct proportions. -/
def Mixture.totalProportion (m : Mixture) : ℚ := (m.comps.map Prod.snd).sum

/-- Lookup in the `_proportions` dict by component hash (first match;
keys are unique for validated mixtures). -/
def lookupProportion (cs : List (Component × ℚ)) (h : Nat) : Option ℚ :=
  (cs.find? (fun cp => componentId cp.1 == h)).map Prod.snd

/-- `Mixture.__init__` validation: tasks/proportions must have equal
length and component hashes must be pairwise distinct
(`len(set(hashes)) != len(tasks)` is the duplicate check); on success the
zipped association is stored. -/
def mkMixture (uid : Nat) (name : String) (tasks : List Component)
    (proportions : List ℚ) : Except String Mixture :=
  if tasks.length ≠ proportions.length then
    Except.error "Mixture must have same number of tasks and proportions."
  else
    let hashes := tasks.map componentId
    if hashes.dedup.length ≠ tasks.length then
      Except.error "Mixture has duplicate tasks."
    else
      Except.ok (Mixture.mk uid name (tasks.zip proportions))

/-- Stable insertion (by task name) used to model Python's stable
`sorted(..., key=lambda t: t.name)`. -/
def insertByName (t : Task) : List Task → List Task
  | [] => [t]
  | u :: rest => if t.name ≤ u.name then t :: u :: rest else u :: insertByName t rest

/-- Stable sort by task name. -/
def sortByName : List Task → List Task
  | [] => []
  | t :: rest => insertByName t (sortByName rest)

/-- Identity-based deduplication, modelling `set(...)` over objects whose
equality and hash are object identity: keeps the first occurrence of each
id.  (Python's set iteration order is unspecified; keeping first
occurrences is one admissible order, and the subsequent name-sort makes
the choice observable only between equal names.) -/
def dedupByIdAux : List Nat → List Task → List Task
  | _, [] => []
  | seen, t :: rest =>
      if t.id ∈ seen then dedupByIdAux seen rest
      else t :: dedupByIdAux (t.id :: seen) rest

def dedupById (l : List Task) : List Task := dedupByIdAux [] l

/-- The direct Task components, in order (`[t for t in all_ if
isinstance(t, Task)]`). -/
def directTasks (cs : List (Component × ℚ)) : List Task :=
  cs.filterMap (fun cp => match cp.1 with | Sum.inl t => some t | Sum.inr _ => none)

mutual
/-- `Mixture.leaf_tasks`: direct tasks plus the leaf tasks of direct
sub-mixtures (`sum(sub_tasks, tasks)`), deduplicated as a set and sorted
by name. -/
def Mixture.leafTasks : Mixture → List Task
  | Mixture.mk _ _ cs => sortByName (dedupById (directTasks cs ++ childLeafTasks cs))

/-- Concatenation of `mix.leaf_tasks` over the direct sub-mixtures, in
order. -/
def childLeafTasks : List (Component × ℚ) → List Task
  | [] => []
  | (Sum.inl _, _) :: rest => childLeafTasks rest
  | (Sum.inr m, _) :: rest => Mixture.leafTasks m ++ childLeafTasks rest
end

mutual
/-- `Mixture.get_proportion`: the direct proportion for the argument's
hash (0 if absent), early-returned if the argument is not in
`leaf_tasks`, plus the normalised contributions of the direct
sub-mixtures containing it. -/
def Mixture.getProportion : Mixture → Component → ℚ
  | Mixture.mk u nm cs, x =>
      let direct : ℚ := (lookupProportion cs (componentId x)).getD 0
      if (Mixture.leafTasks (Mixture.mk u nm cs)).any
          (fun t => t.id == componentId x) then
        direct + subMixtureContrib cs x
      else direct

/-- The loop over `tasks_or_mixtures`: for each direct sub-mixture whose
`leaf_tasks` contain the argument, add
`weight * sub.get_proportion(task) / sub.total_proportion`. -/
def subMixtureContrib : List (Component × ℚ) → Component → ℚ
  | [], _ => 0
  | (Sum.inl _, _) :: rest, x => subMixtureContrib rest x
  | (Sum.inr m, p) :: rest, x =>
      (if (Mixture.leafTasks m).any (fun t => t.id == componentId x) then
        p * Mixture.getProportion m x / Mixture.totalProportion m
      else 0) + subMixtureContrib rest x
end

mutual
/-- From the spec's words (reference for the `leaf_tasks` claim): the
Tasks transitively reachable through nested Mixtures, with duplicates,
in pre-order. -/
def Mixture.reachableTasksSpec : Mixture → List Task
  | Mixture.mk _ _ cs => reachableComps cs

def reachableComps : List (Component × ℚ) → List Task
  | [] => []
  | (Sum.inl t, _) :: rest => t :: reachableComps rest
  | (Sum.inr m, _) :: rest => Mixture.reachableTasksSpec m ++ reachableComps rest
end

/-! Helper lemmas about the sorting and deduplication building blocks. -/

theorem perm_insertByName (t : Task) (l : List Task) :
    List.Perm (insertByName t l) (t :: l) := by
  induction l with
  | nil => simp [insertByName]
  | cons u rest ih =>
      by_cases h : t.name ≤ u.name
      · simp [insertByName, h]
      · simp only [insertByName, if_neg h]
        exact (ih.cons u).trans (List.Perm.swap t u rest)

theorem perm_sortByName (l : List Task) : List.Perm (sortByName l) l := by
  induction l with
  | nil => simp [sortByName]
  | cons t rest ih =>
      exact (perm_insertByName t (sortByName rest)).trans (ih.cons t)

theorem mem_sortByName {x : Task} {l : List Task} :
    x ∈ sortByName l ↔ x ∈ l := (perm_sortByName l).mem_iff

theorem any_sortByName (l : List Task) (p : Task → Bool) :
    (sortByName l).any p = l.any p := by
  rw [Bool.eq_iff_iff]
  simp only [List.any_eq_true]
  constructor
  · rintro ⟨x, hx, hp⟩
    exact ⟨x, mem_sortByName.mp hx, hp⟩
  · rintro ⟨x, hx, hp⟩
    exact ⟨x, mem_sortByName.mpr hx, hp⟩

theorem any_dedupByIdAux (l : List Task) (c : Nat) :
    ∀ seen : List Nat, c ∉ seen →
      (dedupByIdAux seen l).any (fun t => t.id == c) =
        l.any (fun t => t.id == c) := by
  induction l with
  | nil => intro seen _; rfl
  | cons t rest ih =>
      intro seen hc
      by_cases hmem : t.id ∈ seen
      · have hne : (t.id == c) = false := by
          refine beq_eq_false_iff_ne.mpr ?_
          intro h
          exact hc (h ▸ hmem)
        simp [dedupByIdAux, hmem, hne, ih seen hc]
      · by_cases heq : t.id = c
        · subst heq
          simp [dedupByIdAux, hmem]
        · have hc' : c ∉ t.id :: seen := by
            intro h
            rcases List.mem_cons.mp h with h1 | h2
            · exact heq h1.symm
            · exact hc h2
          have hne : (t.id == c) = false := beq_eq_false_iff_ne.mpr heq
          simp [dedupByIdAux, hmem, hne, ih (t.id :: seen) hc']

theorem any_dedupById (l : List Task) (c : Nat) :
    (dedupById l).any (fun t => t.id == c) = l.any (fun t => t.id == c) :=
  any_dedupByIdAux l c [] (by simp)

/-- Any-check of an id over the result of `leaf_tasks` equals the
any-check over the raw (pre-dedup, pre-sort) concatenation. -/
theorem any_leafTasks (u : Nat) (nm : String) (cs : List (Component × ℚ)) (c : Nat) :
    (Mixture.leafTasks (Mixture.mk u nm cs)).any (fun t => t.id == c) =
      (directTasks cs ++ childLeafTasks cs).any (fun t => t.id == c) := by
  rw [Mixture.leafTasks, any_sortByName, any_dedupById]

theorem pairwise_insertByName (t : Task) (l : List Task)
    (h : l.Pairwise (fun a b => a.name ≤ b.name)) :
    (insertByName t l).Pairwise (fun a b => a.name ≤ b.name) := by
  induction l with
  | nil => simp [insertByName]
  | cons u rest ih =>
      rcases List.pairwise_cons.mp h with ⟨hu, hrest⟩
      by_cases hle : t.name ≤ u.name
      · simp only [insertByName, if_pos hle]
        refine List.pairwise_cons.mpr ⟨?_, h⟩
        intro b hb
        rcases List.mem_cons.mp hb with rfl | hb2
        · exact hle
        · exact le_trans hle (hu b hb2)
      · simp only [insertByName, if_neg hle]
        refine List.pairwise_cons.mpr ⟨?_, ih hrest⟩
        intro b hb
        have hb2 := (perm_insertByName t rest).mem_iff.mp hb
        rcases List.mem_cons.mp hb2 with rfl | hb3
        · exact le_of_not_le hle
        · exact hu b hb3

theorem pairwise_sortByName (l : List Task) :
    (sortByName l).Pairwise (fun a b => a.name ≤ b.name) := by
  induction l with
  | nil => simp [sortByName]
  | cons t rest ih => exact pairwise_insertByName t (sortByName rest) ih

theorem dedupByIdAux_id_not_seen :
    ∀ (l : List Task) (seen : List Nat), ∀ x ∈ dedupByIdAux seen l, x.id ∉ seen := by
  intro l
  induction l with
  | nil => intro seen x hx; simp [dedupByIdAux] at hx
  | cons t rest ih =>
      intro seen x hx
      by_cases hmem : t.id ∈ seen
      · exact ih seen x (by simpa [dedupByIdAux, hmem] using hx)
      · have hx2 : x = t ∨ x ∈ dedupByIdAux (t.id :: seen) rest := by
          simpa [dedupByIdAux, hmem] using hx
        rcases hx2 with rfl | hx3
        · exact hmem
        · intro hxs
          exact ih (t.id :: seen) x hx3 (List.mem_cons_of_mem _ hxs)

theorem nodup_map_id_dedupByIdAux :
    ∀ (l : List Task) (seen : List Nat), ((dedupByIdAux seen l).map Task.id).Nodup := by
  intro l
  induction l with
  | nil => intro seen; simp [dedupByIdAux]
  | cons t rest ih =>
      intro seen
      by_cases hmem : t.id ∈ seen
      · simpa [dedupByIdAux, hmem] using ih seen
      · simp only [dedupByIdAux, if_neg hmem, List.map_cons]
        refine List.nodup_cons.mpr ⟨?_, ih (t.id :: seen)⟩
        intro hctr
        rcases List.mem_map.mp hctr with ⟨x, hx, hxid⟩
        exact dedupByIdAux_id_not_seen rest (t.id :: seen) x hx (by simp [hxid])

theorem nodup_map_id_dedupById (l : List Task) :
    ((dedupById l).map Task.id).Nodup := nodup_map_id_dedupByIdAux l []

theorem mem_of_mem_dedupByIdAux :
    ∀ (l : List Task) (seen : List Nat), ∀ x ∈ dedupByIdAux seen l, x ∈ l := by
  intro l
  induction l with
  | nil => intro seen x hx; simp [dedupByIdAux] at hx
  | cons t rest ih =>
      intro seen x hx
      by_cases hmem : t.id ∈ seen
      · exact List.mem_cons_of_mem _ (ih seen x (by simpa [dedupByIdAux, hmem] using hx))
      · have hx2 : x = t ∨ x ∈ dedupByIdAux (t.id :: seen) rest := by
          simpa [dedupByIdAux, hmem] using hx
        rcases hx2 with rfl | hx3
        · exact List.mem_cons_self x rest
        · exact List.mem_cons_of_mem _ (ih (t.id :: seen) x hx3)

theorem exists_id_dedupById {l : List Task} {c : Nat} (h : ∃ t ∈ l, t.id = c) :
    ∃ t ∈ dedupById l, t.id = c := by
  have hb : (l.any fun t => t.id == c) = true := by
    rcases h with ⟨t, ht, rfl⟩
    exact List.any_eq_true.mpr ⟨t, ht, by simp⟩
  have h2 : ((dedupById l).any fun t => t.id == c) = true := by
    rw [any_dedupById]; exact hb
  rcases List.any_eq_true.mp h2 with ⟨t, ht, hid⟩
  exact ⟨t, ht, by simpa using hid⟩

/-! Membership through the raw concatenation used by `leaf_tasks`. -/

theorem mem_childLeafTasks_iff {x : Task} :
    ∀ cs : List (Component × ℚ),
      x ∈ childLeafTasks cs ↔ ∃ m p, (Sum.inr m, p) ∈ cs ∧ x ∈ m.leafTasks := by
  intro cs
  induction cs with
  | nil => simp [childLeafTasks]
  | cons cp rest ih =>
      rcases cp with ⟨c, p⟩
      rcases c with t | m
      · rw [childLeafTasks]
        rw [ih]
        constructor
        · rintro ⟨m, q, hm, hx⟩
          exact ⟨m, q, List.mem_cons_of_mem _ hm, hx⟩
        · rintro ⟨m, q, hm, hx⟩
          rcases List.mem_cons.mp hm with heq | hm2
          · cases heq
          · exact ⟨m, q, hm2, hx⟩
      · rw [childLeafTasks]
        rw [List.mem_append, ih]
        constructor
        · rintro (hx | ⟨m2, q, hm2, hx⟩)
          · exact ⟨m, p, List.mem_cons_self _ _, hx⟩
          · exact ⟨m2, q, List.mem_cons_of_mem _ hm2, hx⟩
        · rintro ⟨m2, q, hm2, hx⟩
          rcases List.mem_cons.mp hm2 with heq | hm3
          · rcases Prod.mk.injEq .. ▸ heq with ⟨h1, h2⟩
            cases Sum.inr.injEq .. ▸ h1
            exact Or.inl hx
          · exact Or.inr ⟨m2, q, hm3, hx⟩

theorem mem_directTasks_iff {x : Task} (cs : List (Component × ℚ)) :
    x ∈ directTasks cs ↔ ∃ p, (Sum.inl x, p) ∈ cs := by
  induction cs with
  | nil => simp [directTasks]
  | cons cp rest ih =>
      rcases cp with ⟨c, p⟩
      rcases c with t | m
      · simp only [directTasks, List.filterMap_cons] at ih ⊢
        constructor
        · intro h
          rcases List.mem_cons.mp h with rfl | h2
          · exact ⟨p, List.mem_cons_self _ _⟩
          · rcases ih.mp h2 with ⟨q, hq⟩
            exact ⟨q, List.mem_cons_of_mem _ hq⟩
        · rintro ⟨q, hq⟩
          rcases List.mem_cons.mp hq with heq | h2
          · simp only [Prod.mk.injEq, Sum.inl.injEq] at heq
            rcases heq with ⟨rfl, rfl⟩
            exact List.mem_cons_self _ _
          · exact List.mem_cons_of_mem _ (ih.mpr ⟨q, h2⟩)
      · simp only [directTasks, List.filterMap_cons] at ih ⊢
        rw [ih]
        constructor
        · rintro ⟨q, hq⟩
          exact ⟨q, List.mem_cons_of_mem _ hq⟩
        · rintro ⟨q, hq⟩
          rcases List.mem_cons.mp hq with heq | h2
          · cases heq
          · exact ⟨q, h2⟩

theorem mem_reachableComps_iff {x : Task} :
    ∀ cs : List (Component × ℚ),
      x ∈ reachableComps cs ↔
        (∃ p, (Sum.inl x, p) ∈ cs) ∨
          ∃ m p, (Sum.inr m, p) ∈ cs ∧ x ∈ m.reachableTasksSpec := by
  intro cs
  induction cs with
  | nil => simp [reachableComps]
  | cons cp rest ih =>
      rcases cp with ⟨c, p⟩
      rcases c with t | m
      · rw [reachableComps, List.mem_cons, ih]
        constructor
        · rintro (rfl | h | h)
          · exact Or.inl ⟨p, List.mem_cons_self _ _⟩
          · rcases h with ⟨q, hq⟩
            exact Or.inl ⟨q, List.mem_cons_of_mem _ hq⟩
          · rcases h with ⟨m2, q, hm, hx⟩
            exact Or.inr ⟨m2, q, List.mem_cons_of_mem _ hm, hx⟩
        · rintro (⟨q, hq⟩ | ⟨m2, q, hm, hx⟩)
          · rcases List.mem_cons.mp hq with heq | h2
            · rcases Prod.mk.injEq .. ▸ heq with ⟨h1, _⟩
              cases Sum.inl.injEq .. ▸ h1
              exact Or.inl rfl
            · exact Or.inr (Or.inl ⟨q, h2⟩)
          · rcases List.mem_cons.mp hm with heq | h2
            · cases heq
            · exact Or.inr (Or.inr ⟨m2, q, h2, hx⟩)
      · rw [reachableComps, List.mem_append, ih]
        constructor
        · rintro (hx | h | h)
          · exact Or.inr ⟨m, p, List.mem_cons_self _ _, hx⟩
          · rcases h with ⟨q, hq⟩
            exact Or.inl ⟨q, List.mem_cons_of_mem _ hq⟩
          · rcases h with ⟨m2, q, hm, hx⟩
            exact Or.inr ⟨m2, q, List.mem_cons_of_mem _ hm, hx⟩
        · rintro (⟨q, hq⟩ | ⟨m2, q, hm, hx⟩)
          · rcases List.mem_cons.mp hq with heq | h2
            · cases heq
            · exact Or.inr (Or.inl ⟨q, h2⟩)
          · rcases List.mem_cons.mp hm with heq | h2
            · rcases Prod.mk.injEq .. ▸ heq with ⟨h1, _⟩
              cases Sum.inr.injEq .. ▸ h1
              exact Or.inl hx
            · exact Or.inr (Or.inr ⟨m2, q, h2, hx⟩)

theorem sizeOf_mixture_of_mem {m2 : Mixture} {p : ℚ} {cs : List (Component × ℚ)}
    (h : (Sum.inr m2, p) ∈ cs) (u : Nat) (nm : String) :
    sizeOf m2 < sizeOf (Mixture.mk u nm cs) := by
  have h1 := List.sizeOf_lt_of_mem h
  simp only [Prod.mk.sizeOf_spec, Sum.inr.sizeOf_spec] at h1
  simp only [Mixture.mk.sizeOf_spec]
  omega

/-- Strong induction core: `leaf_tasks` is contained in the transitively
reachable task set, and conversely every reachable task id occurs in
`leaf_tasks`. -/
theorem leafTasks_reach_aux :
    ∀ n : Nat, ∀ m : Mixture, sizeOf m < n →
      (∀ x ∈ m.leafTasks, x ∈ m.reachableTasksSpec) ∧
        (∀ c : Nat, (∃ t ∈ m.reachableTasksSpec, t.id = c) →
          ∃ t ∈ m.leafTasks, t.id = c) := by
  intro n
  induction n with
  | zero => intro m h; omega
  | succ n ih =>
      rintro ⟨u, nm, cs⟩ hsz
      have hsz' : sizeOf (Mixture.mk u nm cs) ≤ n := Nat.lt_succ_iff.mp hsz
      constructor
      · intro x hx
        rw [Mixture.leafTasks] at hx
        have hx1 : x ∈ dedupById (directTasks cs ++ childLeafTasks cs) :=
          mem_sortByName.mp hx
        have hx2 : x ∈ directTasks cs ++ childLeafTasks cs :=
          mem_of_mem_dedupByIdAux _ [] x hx1
        rw [Mixture.reachableTasksSpec]
        rcases List.mem_append.mp hx2 with hd | hc
        · exact (mem_reachableComps_iff cs).mpr (Or.inl ((mem_directTasks_iff cs).mp hd))
        · rcases (mem_childLeafTasks_iff cs).mp hc with ⟨m2, p, hm2, hxm2⟩
          have hlt : sizeOf m2 < n :=
            lt_of_lt_of_le (sizeOf_mixture_of_mem hm2 u nm) hsz'
          exact (mem_reachableComps_iff cs).mpr
            (Or.inr ⟨m2, p, hm2, (ih m2 hlt).1 x hxm2⟩)
      · intro c hc
        rcases hc with ⟨t, ht, rfl⟩
        rw [Mixture.reachableTasksSpec] at ht
        rw [Mixture.leafTasks]
        rcases (mem_reachableComps_iff cs).mp ht with ⟨p, hp⟩ | ⟨m2, p, hm2, htm2⟩
        · have hbase : t ∈ directTasks cs ++ childLeafTasks cs :=
            List.mem_append.mpr (Or.inl ((mem_directTasks_iff cs).mpr ⟨p, hp⟩))
          rcases exists_id_dedupById ⟨t, hbase, rfl⟩ with ⟨t2, ht2, hid⟩
          exact ⟨t2, mem_sortByName.mpr ht2, hid⟩
        · have hlt : sizeOf m2 < n :=
            lt_of_lt_of_le (sizeOf_mixture_of_mem hm2 u nm) hsz'
          rcases (ih m2 hlt).2 t.id ⟨t, htm2, rfl⟩ with ⟨t2, ht2, hid⟩
          have hbase : t2 ∈ directTasks cs ++ childLeafTasks cs :=
            List.mem_append.mpr (Or.inr ((mem_childLeafTasks_iff cs).mpr ⟨m2, p, hm2, ht2⟩))
          rcases exists_id_dedupById ⟨t2, hbase, hid⟩ with ⟨t3, ht3, hid3⟩
          exact ⟨t3, mem_sortByName.mpr ht3, hid3⟩

theorem leafTasks_sub_reach (m : Mixture) :
    ∀ x ∈ m.leafTasks, x ∈ m.reachableTasksSpec :=
  (leafTasks_reach_aux (sizeOf m + 1) m (Nat.lt_succ_self _)).1

theorem reach_id_in_leafTasks (m : Mixture) (c : Nat)
    (h : ∃ t ∈ m.reachableTasksSpec, t.id = c) : ∃ t ∈ m.leafTasks, t.id = c :=
  (leafTasks_reach_aux (sizeOf m + 1) m (Nat.lt_succ_self _)).2 c h

theorem pairwise_leafTasks (m : Mixture) :
    m.leafTasks.Pairwise (fun a b => a.name ≤ b.name) := by
  rcases m with ⟨u, nm, cs⟩
  rw [Mixture.leafTasks]
  exact pairwise_sortByName _

theorem nodup_ids_leafTasks (m : Mixture) : (m.leafTasks.map Task.id).Nodup := by
  rcases m with ⟨u, nm, cs⟩
  rw [Mixture.leafTasks]
  have hperm := (perm_sortByName (dedupById (directTasks cs ++ childLeafTasks cs))).map Task.id
  exact hperm.nodup_iff.mpr (nodup_map_id_dedupById _)

/-- When the argument is not in `leaf_tasks`, `get_proportion` returns
just the direct proportion for its hash (the early return). -/
theorem getProportion_of_not_leaf (m : Mixture) (x : Component)
    (h : (m.leafTasks.any fun t => t.id == componentId x) = false) :
    m.getProportion x = (lookupProportion m.comps (componentId x)).getD 0 := by
  rcases m with ⟨u, nm, cs⟩
  rw [Mixture.getProportion]
  simp only [Mixture.comps]
  simp [h]

/-! ## The grain lazy-dataset layer, as a syntax tree

Each constructor records one external lazy-dataset primitive invocation
(`SourceLazyMapDataset`, `ShardLazyMapDataset`, `LazyDatasetTransform(p)(ds,
seed)`, `ShuffleLazyMapDataset`, `ConcatLazyMapDataset`,
`MixedLazyMapDataset`, `RepeatLazyMapDataset(num_epochs=None)`) with the
arguments the code passes. -/

inductive LazyDS where
  | sourceDS (taskId : Nat) (split : String)
  | shardDS (shardIndex shardCount : Nat) (ds : LazyDS)
  | prepApplied (p : Prep) (seed : Option Nat) (ds : LazyDS)
  | shuffled (seed : Nat) (ds : LazyDS)
  | concatAll (dss : List LazyDS)
  | mixedDS (dss : List LazyDS) (props : List ℚ) (stopOnEmpty : Bool)
  | repeatInf (ds : LazyDS)

/-- Python truthiness of an `int | None` option (`if batch_size:`,
`if num_epochs:`): `None` and `0` are falsy. -/
def truthyN : Option Nat → Bool
  | none => false
  | some n => n != 0

/-- The preprocessor loop of one epoch: apply each preprocessor with the
current `prep_seed` (`LazyDatasetTransform(prep)(ds, prep_seed)`), then
re-split (`prep_seed, _ = _split_seed(prep_seed)`). Returns the dataset
and the final prep seed. -/
def applyPreps (sf : Nat → Nat × Nat) : List Prep → LazyDS → Nat → LazyDS × Nat
  | [], ds, s => (ds, s)
  | p :: ps, ds, s => applyPreps sf ps (LazyDS.prepApplied p (some s) ds) (sf s).1

/-- Step 3 of `get_task_lazy_dataset`: for each epoch replica, derive
`(next_epoch_seed, prep_seed) = _split_seed(next_epoch_seed)` and
`(prep_seed, shuffle_seed) = _split_seed(prep_seed)`, run the
preprocessors, and shuffle with `shuffle_seed` if requested. -/
def epochLoop (sf : Nat → Nat × Nat) (preps : List Prep) (shuffle : Bool) :
    List LazyDS → Nat → List LazyDS
  | [], _ => []
  | ds :: rest, epochSeed =>
      let nextEpochSeed := (sf epochSeed).1
      let prepSeed0 := (sf epochSeed).2
      let prepSeed1 := (sf prepSeed0).1
      let shuffleSeed := (sf prepSeed0).2
      let dsPrep := (applyPreps sf preps ds prepSeed1).1
      let dsOut := if shuffle then LazyDS.shuffled shuffleSeed dsPrep else dsPrep
      dsOut :: epochLoop sf preps shuffle rest nextEpochSeed

/-- Step 4 of `get_task_lazy_dataset`: a single epoch dataset is returned
as is (`if len(preprocessed_dss) == 1`), otherwise the epochs are
concatenated with `ConcatLazyMapDataset`. -/
def combineEpochs : List LazyDS → LazyDS
  | [d] => d
  | l => LazyDS.concatAll l

/-- `Mixture.get_task_lazy_dataset` (`self` is unused by the source
method, so it is modelled as a standalone function). Returns the built
lazy dataset together with the post-call Task: the source aliases the
task's preprocessor list (`preps = task._preprocessors`) and extends it
in place when a feature converter or batch size is given; state passing
makes this mutation explicit. `sequence_lengths` is absorbed into the
modelled feature converter (the transform list `get_transforms` returns
for it). `seed` is modelled as an integer; `seed=None` would reseed numpy
from OS entropy, outside the deterministic fragment modelled here. -/
def getTaskLazyDataset (sf : Nat → Nat × Nat) (task : Task) (split : String)
    (featureConverter : Option (List Prep)) (batchSize : Option Nat)
    (shuffle : Bool) (seed : Nat) (shardInfo : Option ShardInfo)
    (numEpochs : Option Nat) : LazyDS × Task :=
  let ds0 : LazyDS := LazyDS.sourceDS task.id split
  let ds1 : LazyDS :=
    match shardInfo with
    | some si => LazyDS.shardDS si.index si.numShards ds0
    | none => ds0
  let dss : List LazyDS :=
    match numEpochs with
    | some n => if n ≠ 0 then List.replicate n ds1 else [ds1]
    | none => [ds1]
  let preps : List Prep :=
    task.preprocessors ++ featureConverter.getD [] ++
      (if truthyN batchSize then [Prep.batchT (batchSize.getD 0) none] else [])
  let preprocessed := epochLoop sf preps shuffle dss seed
  (combineEpochs preprocessed, { task with preprocessors := preps })

/-- `grain.IndexSampler` arguments. -/
structure IndexSampler where
  numRecords : Option Int
  shardOpts : Option (Nat × Nat)
  shuffle : Bool
  numEpochs : Option Nat
  seed : Option Nat
  deriving DecidableEq, Repr

/-- `Task._load_data`: the `grain.DataLoader` plus iterator-wrapper
descriptor: which source (task, split), which sampler, which operations. -/
structure LoadedData where
  sourceTask : Nat
  split : String
  sampler : IndexSampler
  ops : List Prep
  deriving DecidableEq, Repr

def loadData (tid : Nat) (split : String) (sampler : IndexSampler)
    (ops : List Prep) : LoadedData :=
  ⟨tid, split, sampler, ops⟩

/-- The operation chain `self.get_preprocessors()` (a copy) extended with
the feature-converter transforms (if any) and the
`grain.BatchOperation(batch_size, drop_remainder=False)` op (if
`batch_size` is truthy), built identically by `Task.get_dataset` and
`Task.get_dataset_by_step`. -/
def Task.allStepOps (t : Task) (featureConverter : Option (List Prep))
    (batchSize : Option Nat) : List Prep :=
  t.preprocessors ++ featureConverter.getD [] ++
    (if truthyN batchSize then [Prep.batchOperation (batchSize.getD 0) false] else [])

/-- `Task.get_dataset`: builds the sampler from the source record count
and shard/shuffle/epoch/seed parameters, extends a copy of the
preprocessor chain, and loads. The returned Task is the post-call task
state: `get_preprocessors` copies the list, so the Task is unchanged. -/
def Task.getDataset (t : Task) (split : String)
    (featureConverter : Option (List Prep)) (batchSize : Option Nat)
    (shuffle : Bool) (seed : Option Nat) (shardInfo : Option ShardInfo)
    (numEpochs : Option Nat) : LoadedData × Task :=
  let shardOpts : Option (Nat × Nat) := shardInfo.map (fun si => (si.index, si.numShards))
  let sampler : IndexSampler :=
    ⟨t.source.numInputExamples split, shardOpts, shuffle, numEpochs, seed⟩
  (loadData t.id split sampler (t.allStepOps featureConverter batchSize), t)

def DEFAULT_NUM_RECORDS_TO_INSPECT : Int := 2

def MAX_NUM_RECORDS_TO_INSPECT : Int := 1000

/-- The `num_records` validation at the top of `get_dataset_by_step`. -/
def clampNumRecords (n : Int) : Int :=
  if n < 1 then DEFAULT_NUM_RECORDS_TO_INSPECT
  else if n > MAX_NUM_RECORDS_TO_INSPECT then MAX_NUM_RECORDS_TO_INSPECT
  else n

/-- The non-sharded, single-epoch sampler `get_dataset_by_step` builds
over the clamped number of records. -/
def byStepSampler (numRecords : Int) (shuffle : Bool) (seed : Option Nat) :
    IndexSampler :=
  ⟨some (clampNumRecords numRecords), none, shuffle, some 1, seed⟩

/-- The accumulation loop of `get_dataset_by_step`: for each op append it
to `accumulated_ops` and re-materialize the whole prefix. -/
def stepsAccum (tid : Nat) (split : String) (sampler : IndexSampler) :
    List Prep → List Prep → List LoadedData
  | _, [] => []
  | acc, op :: rest =>
      loadData tid split sampler (acc ++ [op]) ::
        stepsAccum tid split sampler (acc ++ [op]) rest

/-- `Task.get_dataset_by_step`: clamp `num_records`, build the
non-sharded single-epoch sampler, and materialize the raw sample plus
every prefix of the operation chain. -/
def Task.getDatasetByStep (t : Task) (numRecords : Int) (split : String)
    (featureConverter : Option (List Prep)) (batchSize : Option Nat)
    (shuffle : Bool) (seed : Option Nat) : List LoadedData :=
  let sampler := byStepSampler numRecords shuffle seed
  let allOps := t.allStepOps featureConverter batchSize
  let step0 := loadData t.id split sampler []
  if allOps.isEmpty then [step0]
  else step0 :: stepsAccum t.id split sampler [] allOps

/-- The mixing core of `Mixture.get_lazy_dataset`: one per-leaf-task lazy
dataset (feature converter and batching disabled per task), the resolved
proportions, `MixedLazyMapDataset(..., stop_on_empty_dataset=True)`, then
the post-mix transforms (feature-converter transforms, then
`grain.Batch(batch_size, drop_remainder=False)`), each applied with
`seed=None`. -/
def Mixture.mixPostMix (sf : Nat → Nat × Nat) (m : Mixture) (split : String)
    (featureConverter : Option (List Prep)) (batchSize : Option Nat)
    (shuffle : Bool) (seed : Nat) (shardInfo : Option ShardInfo)
    (numEpochs : Option Nat) : LazyDS :=
  let leaf := m.leafTasks
  let datasets := leaf.map
    (fun t => (getTaskLazyDataset sf t split none none shuffle seed shardInfo numEpochs).1)
  let props := leaf.map (fun t => m.getProportion (Sum.inl t))
  let mixed := LazyDS.mixedDS datasets props true
  let postMixPreps := featureConverter.getD [] ++
    (if truthyN batchSize then [Prep.batchT (batchSize.getD 0) (some false)] else [])
  postMixPreps.foldl (fun d p => LazyDS.prepApplied p none d) mixed

/-- `Mixture.get_lazy_dataset`: reject `num_epochs is None and shuffle`
before building anything; otherwise build the mixed dataset and, when
`num_epochs is None`, wrap it in `RepeatLazyMapDataset(num_epochs=None)`
as the final step. The second component is the post-call state of the
leaf tasks (every per-task call is made with `feature_converter=None`,
`batch_size=None`; on the error path no per-task call happens). -/
def Mixture.getLazyDataset (sf : Nat → Nat × Nat) (m : Mixture) (split : String)
    (featureConverter : Option (List Prep)) (batchSize : Option Nat)
    (shuffle : Bool) (seed : Nat) (shardInfo : Option ShardInfo)
    (numEpochs : Option Nat) : Except String LazyDS × List Task :=
  if numEpochs = none ∧ shuffle then
    (Except.error "Repeating indefinitely with shuffling turned on is not supported.",
      m.leafTasks)
  else
    let core := m.mixPostMix sf split featureConverter batchSize shuffle seed
      shardInfo numEpochs
    let post := m.leafTasks.map
      (fun t => (getTaskLazyDataset sf t split none none shuffle seed shardInfo numEpochs).2)
    (if numEpochs = none then Except.ok (LazyDS.repeatInf core) else Except.ok core, post)

/-- `Mixture.get_dataset` result descriptor: the built lazy graph fed
through the structurally no-op sampler (`num_records=len(ds)`,
`NoSharding`, `shuffle=False`, `num_epochs=1`, the given seed) and the
loader. The dataset length is a function of the lazy graph alone
(computed by the external engine), so the descriptor keeps the graph. -/
structure MixLoadedData where
  ds : LazyDS
  samplerShuffle : Bool
  samplerNumEpochs : Option Nat
  samplerSeed : Option Nat

/-- `Mixture.get_dataset`: build the lazy dataset, then wrap it with the
no-op sampler and loader. -/
def Mixture.getDataset (sf : Nat → Nat × Nat) (m : Mixture) (split : String)
    (featureConverter : Option (List Prep)) (batchSize : Option Nat)
    (shuffle : Bool) (seed : Nat) (shardInfo : Option ShardInfo)
    (numEpochs : Option Nat) : Except String MixLoadedData × List Task :=
  let r := m.getLazyDataset sf split featureConverter batchSize shuffle seed
    shardInfo numEpochs
  (r.1.map (fun ds => ⟨ds, false, some 1, some seed⟩), r.2)

/-! Seed extraction from a lazy graph, for the seed-tree claims. -/

mutual
/-- All seeds attached to preprocessor applications, in construction
order. -/
def LazyDS.prepSeeds : LazyDS → List Nat
  | .sourceDS .. => []
  | .shardDS _ _ d => d.prepSeeds
  | .prepApplied _ s d => d.prepSeeds ++ s.toList
  | .shuffled _ d => d.prepSeeds
  | .concatAll ds => prepSeedsList ds
  | .mixedDS ds _ _ => prepSeedsList ds
  | .repeatInf d => d.prepSeeds

def prepSeedsList : List LazyDS → List Nat
  | [] => []
  | d :: rest => d.prepSeeds ++ prepSeedsList rest
end

mutual
/-- All seeds attached to shuffle nodes. -/
def LazyDS.shuffleSeeds : LazyDS → List Nat
  | .sourceDS .. => []
  | .shardDS _ _ d => d.shuffleSeeds
  | .prepApplied _ _ d => d.shuffleSeeds
  | .shuffled s d => d.shuffleSeeds ++ [s]
  | .concatAll ds => shuffleSeedsList ds
  | .mixedDS ds _ _ => shuffleSeedsList ds
  | .repeatInf d => d.shuffleSeeds

def shuffleSeedsList : List LazyDS → List Nat
  | [] => []
  | d :: rest => d.shuffleSeeds ++ shuffleSeedsList rest
end

/-- Modelled from the spec: `_split_seed` reseeds `np.random.RandomState`
(an external library; its internals are not part of this repository) with
the given seed and draws two `randint(0, 2**16 - 1)` values — a
deterministic splitter whose two outputs lie in `[0, 2**16 - 1)` (spec
section 2 "Seed Splitter: pure function deriving two independent
sub-seeds from one seed"; section 9 "explicit deterministic hash-based
splitter"). This is one concrete such splitter, used for closed
instantiations; theorems about the seed tree quantify over every splitter
with the `randint` output range. -/
def splitSeedModel (seed : Nat) : Nat × Nat :=
  ((seed * 48271 + 11) % 65535, (seed * 69621 + 3) % 65535)

theorem splitSeedModel_range (x : Nat) :
    (splitSeedModel x).1 < 65535 ∧ (splitSeedModel x).2 < 65535 :=
  ⟨Nat.mod_lt _ (by norm_num), Nat.mod_lt _ (by norm_num)⟩

/-- The trace of op seeds used by one epoch's preprocessor loop:
`s, fst (sf s), fst (sf (fst (sf s))), ...` (`k` values). -/
def opSeedList (sf : Nat → Nat × Nat) : Nat → Nat → List Nat
  | _, 0 => []
  | s, k + 1 => s :: opSeedList sf (sf s).1 k

theorem length_opSeedList (sf : Nat → Nat × Nat) :
    ∀ (k : Nat) (s : Nat), (opSeedList sf s k).length = k := by
  intro k
  induction k with
  | zero => intro s; rfl
  | succ k ih => intro s; simp [opSeedList, ih]

/-- A value produced by the splitter (either component, any input). -/
def isSplitOut (sf : Nat → Nat × Nat) (v : Nat) : Prop :=
  ∃ x, v = (sf x).1 ∨ v = (sf x).2

theorem isSplitOut_opSeedList (sf : Nat → Nat × Nat) :
    ∀ (k : Nat) (s : Nat), isSplitOut sf s →
      ∀ v ∈ opSeedList sf s k, isSplitOut sf v := by
  intro k
  induction k with
  | zero => intro s _ v hv; simp [opSeedList] at hv
  | succ k ih =>
      intro s hs v hv
      rcases List.mem_cons.mp hv with rfl | hv2
      · exact hs
      · exact ih (sf s).1 ⟨s, Or.inl rfl⟩ v hv2

theorem prepSeeds_applyPreps (sf : Nat → Nat × Nat) :
    ∀ (ps : List Prep) (ds : LazyDS) (s : Nat),
      ((applyPreps sf ps ds s).1).prepSeeds = ds.prepSeeds ++ opSeedList sf s ps.length := by
  intro ps
  induction ps with
  | nil => intro ds s; simp [applyPreps, opSeedList]
  | cons p ps ih =>
      intro ds s
      rw [applyPreps, ih]
      simp [LazyDS.prepSeeds, opSeedList]

theorem shuffleSeeds_applyPreps (sf : Nat → Nat × Nat) :
    ∀ (ps : List Prep) (ds : LazyDS) (s : Nat),
      ((applyPreps sf ps ds s).1).shuffleSeeds = ds.shuffleSeeds := by
  intro ps
  induction ps with
  | nil => intro ds s; simp [applyPreps]
  | cons p ps ih =>
      intro ds s
      rw [applyPreps, ih]
      simp [LazyDS.shuffleSeeds]

theorem mem_prepSeeds_epochLoop (sf : Nat → Nat × Nat) (preps : List Prep) (sh : Bool) :
    ∀ (dss : List LazyDS) (e : Nat), (∀ d ∈ dss, d.prepSeeds = []) →
      ∀ v ∈ prepSeedsList (epochLoop sf preps sh dss e), isSplitOut sf v := by
  intro dss
  induction dss with
  | nil => intro e _ v hv; simp [epochLoop, prepSeedsList] at hv
  | cons d rest ih =>
      intro e hnil v hv
      rw [epochLoop, prepSeedsList] at hv
      rcases List.mem_append.mp hv with hhd | htl
      · have hps : (if sh then
            LazyDS.shuffled (sf (sf e).2).2 ((applyPreps sf preps d (sf (sf e).2).1).1)
          else (applyPreps sf preps d (sf (sf e).2).1).1).prepSeeds
            = opSeedList sf (sf (sf e).2).1 preps.length := by
          cases sh <;>
            simp [LazyDS.prepSeeds, prepSeeds_applyPreps,
              hnil d (List.mem_cons_self d rest)]
        rw [hps] at hhd
        exact isSplitOut_opSeedList sf preps.length _ ⟨(sf e).2, Or.inl rfl⟩ v hhd
      · exact ih (sf e).1 (fun d2 h2 => hnil d2 (List.mem_cons_of_mem _ h2)) v htl

theorem mem_shuffleSeeds_epochLoop (sf : Nat → Nat × Nat) (preps : List Prep) (sh : Bool) :
    ∀ (dss : List LazyDS) (e : Nat), (∀ d ∈ dss, d.shuffleSeeds = []) →
      ∀ v ∈ shuffleSeedsList (epochLoop sf preps sh dss e), isSplitOut sf v := by
  intro dss
  induction dss with
  | nil => intro e _ v hv; simp [epochLoop, shuffleSeedsList] at hv
  | cons d rest ih =>
      intro e hnil v hv
      rw [epochLoop, shuffleSeedsList] at hv
      rcases List.mem_append.mp hv with hhd | htl
      · have hss : (if sh then
            LazyDS.shuffled (sf (sf e).2).2 ((applyPreps sf preps d (sf (sf e).2).1).1)
          else (applyPreps sf preps d (sf (sf e).2).1).1).shuffleSeeds
            = if sh then [(sf (sf e).2).2] else [] := by
          cases sh <;>
            simp [LazyDS.shuffleSeeds, shuffleSeeds_applyPreps,
              hnil d (List.mem_cons_self d rest)]
        rw [hss] at hhd
        cases sh with
        | false => simp at hhd
        | true =>
            rcases List.mem_singleton.mp hhd with rfl
            exact ⟨(sf e).2, Or.inr rfl⟩
      · exact ih (sf e).1 (fun d2 h2 => hnil d2 (List.mem_cons_of_mem _ h2)) v htl

theorem prepSeeds_combineEpochs (l : List LazyDS) :
    (combineEpochs l).prepSeeds = prepSeedsList l := by
  match l with
  | [] => rfl
  | [d] => simp [combineEpochs, prepSeedsList, LazyDS.prepSeeds]
  | a :: b :: rest => simp [combineEpochs, LazyDS.prepSeeds]

theorem shuffleSeeds_combineEpochs (l : List LazyDS) :
    (combineEpochs l).shuffleSeeds = shuffleSeedsList l := by
  match l with
  | [] => rfl
  | [d] => simp [combineEpochs, shuffleSeedsList, LazyDS.shuffleSeeds]
  | a :: b :: rest => simp [combineEpochs, LazyDS.shuffleSeeds]

/-- The pre-preprocessing per-epoch dataset carries no seeds. -/
theorem seeds_sharded_source (task : Task) (split : String) (si : Option ShardInfo) :
    (match si with
      | some s => LazyDS.shardDS s.index s.numShards (LazyDS.sourceDS task.id split)
      | none => LazyDS.sourceDS task.id split).prepSeeds = [] ∧
    (match si with
      | some s => LazyDS.shardDS s.index s.numShards (LazyDS.sourceDS task.id split)
      | none => LazyDS.sourceDS task.id split).shuffleSeeds = [] := by
  cases si <;> simp [LazyDS.prepSeeds, LazyDS.shuffleSeeds]

theorem mem_prepSeeds_getTaskLazyDataset (sf : Nat → Nat × Nat) (task : Task)
    (split : String) (fc : Option (List Prep)) (bs : Option Nat) (sh : Bool)
    (seed : Nat) (si : Option ShardInfo) (ne : Option Nat) :
    ∀ v ∈ ((getTaskLazyDataset sf task split fc bs sh seed si ne).1).prepSeeds,
      isSplitOut sf v := by
  intro v hv
  rw [getTaskLazyDataset.eq_def] at hv
  simp only at hv
  rw [prepSeeds_combineEpochs] at hv
  refine mem_prepSeeds_epochLoop sf _ sh _ seed ?_ v hv
  intro d hd
  rcases (seeds_sharded_source task split si).1 with hps
  cases ne with
  | none => rcases List.mem_singleton.mp hd with rfl; exact hps
  | some n =>
      by_cases hn : n ≠ 0
      · simp only [if_pos hn] at hd
        rcases List.eq_of_mem_replicate hd with rfl
        exact hps
      · simp only [if_neg hn] at hd
        rcases List.mem_singleton.mp hd with rfl
        exact hps

theorem mem_shuffleSeeds_getTaskLazyDataset (sf : Nat → Nat × Nat) (task : Task)
    (split : String) (fc : Option (List Prep)) (bs : Option Nat) (sh : Bool)
    (seed : Nat) (si : Option ShardInfo) (ne : Option Nat) :
    ∀ v ∈ ((getTaskLazyDataset sf task split fc bs sh seed si ne).1).shuffleSeeds,
      isSplitOut sf v := by
  intro v hv
  rw [getTaskLazyDataset.eq_def] at hv
  simp only at hv
  rw [shuffleSeeds_combineEpochs] at hv
  refine mem_shuffleSeeds_epochLoop sf _ sh _ seed ?_ v hv
  intro d hd
  rcases (seeds_sharded_source task split si).2 with hss
  cases ne with
  | none => rcases List.mem_singleton.mp hd with rfl; exact hss
  | some n =>
      by_cases hn : n ≠ 0
      · simp only [if_pos hn] at hd
        rcases List.eq_of_mem_replicate hd with rfl
        exact hss
      · simp only [if_neg hn] at hd
        rcases List.mem_singleton.mp hd with rfl
        exact hss

/-- For a single unshuffled epoch with no feature converter and no batch
size, the trace of preprocessor seeds is exactly the `opSeedList` of the
twice-split starting seed, one entry per preprocessor. -/
theorem prepSeeds_single_epoch (sf : Nat → Nat × Nat) (task : Task) (split : String)
    (seed : Nat) (si : Option ShardInfo) :
    ((getTaskLazyDataset sf task split none none false seed si (some 1)).1).prepSeeds =
      opSeedList sf (sf (sf seed).2).1 task.preprocessors.length := by
  rw [getTaskLazyDataset.eq_def]
  simp only [truthyN, Option.getD_none, List.append_nil, if_neg (by norm_num : ¬(True ∧ False))]
  rw [prepSeeds_combineEpochs]
  simp only [List.replicate, if_pos (by norm_num : (1 : Nat) ≠ 0)]
  rw [epochLoop, epochLoop, prepSeedsList, prepSeedsList]
  simp only [Bool.false_eq_true, if_false, List.append_nil]
  rw [prepSeeds_applyPreps]
  rcases (seeds_sharded_source task split si).1 with hps
  simp [hps]

/-- Pigeonhole: a duplicate-free list of naturals below `n` has at most
`n` elements. -/
theorem length_le_of_nodup_bounded (l : List Nat) (n : Nat) (hn : l.Nodup)
    (hb : ∀ x ∈ l, x < n) : l.length ≤ n := by
  have h1 : l.toFinset ⊆ Finset.range n := by
    intro x hx
    exact Finset.mem_range.mpr (hb x (List.mem_toFinset.mp hx))
  have h2 := Finset.card_le_card h1
  rwa [List.toFinset_card_of_nodup hn, Finset.card_range] at h2

/-- For any splitter with the `randint(0, 2**16 - 1)` output range, a
preprocessor chain longer than `2**16 - 1` forces two preprocessor
applications to receive the same derived seed. -/
theorem opSeeds_collision (sf : Nat → Nat × Nat)
    (hsf : ∀ x, (sf x).1 < 65535 ∧ (sf x).2 < 65535) (task : Task)
    (split : String) (seed : Nat) (si : Option ShardInfo)
    (hk : task.preprocessors.length > 65535) :
    ¬ ((getTaskLazyDataset sf task split none none false seed si (some 1)).1).prepSeeds.Nodup := by
  intro hnd
  rw [prepSeeds_single_epoch] at hnd
  have hb : ∀ x ∈ opSeedList sf (sf (sf seed).2).1 task.preprocessors.length, x < 65535 := by
    intro x hx
    rcases isSplitOut_opSeedList sf _ _ ⟨(sf seed).2, Or.inl rfl⟩ x hx with ⟨y, hy | hy⟩
    · exact hy ▸ (hsf y).1
    · exact hy ▸ (hsf y).2
  have hlen := length_le_of_nodup_bounded _ 65535 hnd hb
  rw [length_opSeedList] at hlen
  omega

/-! Helper lemmas for the step-by-step trace, clamping, and construction
validation. -/

theorem length_stepsAccum (tid : Nat) (split : String) (smp : IndexSampler) :
    ∀ (ops acc : List Prep), (stepsAccum tid split smp acc ops).length = ops.length := by
  intro ops
  induction ops with
  | nil => intro acc; rfl
  | cons op rest ih => intro acc; simp [stepsAccum, ih]

theorem getElem_stepsAccum (tid : Nat) (split : String) (smp : IndexSampler) :
    ∀ (ops acc : List Prep) (i : Nat), i < ops.length →
      (stepsAccum tid split smp acc ops)[i]? =
        some (loadData tid split smp (acc ++ ops.take (i + 1))) := by
  intro ops
  induction ops with
  | nil => intro acc i h; simp at h
  | cons op rest ih =>
      intro acc i h
      cases i with
      | zero => simp [stepsAccum]
      | succ i =>
          rw [stepsAccum]
          rw [List.getElem?_cons_succ]
          rw [ih (acc ++ [op]) i (by simpa using h)]
          simp [List.append_assoc]

theorem sampler_stepsAccum (tid : Nat) (split : String) (smp : IndexSampler) :
    ∀ (ops acc : List Prep), ∀ x ∈ stepsAccum tid split smp acc ops, x.sampler = smp := by
  intro ops
  induction ops with
  | nil => intro acc x hx; simp [stepsAccum] at hx
  | cons op rest ih =>
      intro acc x hx
      rcases List.mem_cons.mp hx with rfl | hx2
      · rfl
      · exact ih (acc ++ [op]) x hx2

theorem clamp_of_lt_one {n : Int} (h : n < 1) :
    clampNumRecords n = DEFAULT_NUM_RECORDS_TO_INSPECT := if_pos h

theorem clamp_of_gt_max {n : Int} (h : n > MAX_NUM_RECORDS_TO_INSPECT) :
    clampNumRecords n = MAX_NUM_RECORDS_TO_INSPECT := by
  rw [clampNumRecords, if_neg (by simp only [MAX_NUM_RECORDS_TO_INSPECT] at h; omega),
    if_pos h]

theorem clamp_of_in_range {n : Int} (h1 : 1 ≤ n) (h2 : n ≤ MAX_NUM_RECORDS_TO_INSPECT) :
    clampNumRecords n = n := by
  rw [clampNumRecords, if_neg (by omega), if_neg (by omega)]

theorem getDatasetByStep_congr (t : Task) {nr nr2 : Int} (split : String)
    (fc : Option (List Prep)) (bs : Option Nat) (sh : Bool) (seed : Option Nat)
    (h : clampNumRecords nr = clampNumRecords nr2) :
    t.getDatasetByStep nr split fc bs sh seed =
      t.getDatasetByStep nr2 split fc bs sh seed := by
  simp only [Task.getDatasetByStep, byStepSampler, h]

theorem dedup_length_eq_iff {l : List Nat} : l.dedup.length = l.length ↔ l.Nodup := by
  constructor
  · intro h
    have hsub : l.dedup.Sublist l := List.dedup_sublist l
    have heq : l.dedup = l := hsub.eq_of_length h
    rw [← heq]
    exact l.nodup_dedup
  · intro h
    rw [List.dedup_eq_self.mpr h]

theorem getTaskLazyDataset_snd (sf : Nat → Nat × Nat) (t : Task) (split : String)
    (fc : Option (List Prep)) (bs : Option Nat) (sh : Bool) (seed : Nat)
    (si : Option ShardInfo) (ne : Option Nat) :
    (getTaskLazyDataset sf t split fc bs sh seed si ne).2 =
      { t with preprocessors := t.preprocessors ++ fc.getD [] ++
          (if truthyN bs then [Prep.batchT (bs.getD 0) none] else []) } := by
  rw [getTaskLazyDataset.eq_def]

/-- The per-task calls issued by `get_lazy_dataset` pass
`feature_converter=None` and `batch_size=None`, so the task's
preprocessor list is extended by nothing and the task is unchanged. -/
theorem getTaskLazyDataset_noMutation (sf : Nat → Nat × Nat) (t : Task)
    (split : String) (sh : Bool) (seed : Nat) (si : Option ShardInfo)
    (ne : Option Nat) :
    (getTaskLazyDataset sf t split none none sh seed si ne).2 = t := by
  rw [getTaskLazyDataset_snd]
  simp [truthyN]

theorem getLazyDataset_snd (sf : Nat → Nat × Nat) (m : Mixture) (split : String)
    (fc : Option (List Prep)) (bs : Option Nat) (sh : Bool) (seed : Nat)
    (si : Option ShardInfo) (ne : Option Nat) :
    (m.getLazyDataset sf split fc bs sh seed si ne).2 = m.leafTasks := by
  rw [Mixture.getLazyDataset.eq_def]
  by_cases h : ne = none ∧ sh = true
  · simp only [if_pos h]
  · simp only [if_neg h]
    have : ∀ t ∈ m.leafTasks,
        (getTaskLazyDataset sf t split none none sh seed si ne).2 = t :=
      fun t _ => getTaskLazyDataset_noMutation sf t split sh seed si ne
    rw [List.map_congr_left this]
    exact List.map_id m.leafTasks

theorem lookup_of_nodup_keys :
    ∀ cs : List (Component × ℚ), ((cs.map fun cp => componentId cp.1).Nodup) →
      ∀ cp ∈ cs, lookupProportion cs (componentId cp.1) = some cp.2 := by
  intro cs
  induction cs with
  | nil => intro _ cp hcp; simp at hcp
  | cons hd rest ih =>
      intro hk cp hcp
      rcases List.nodup_cons.mp hk with ⟨hnotin, hk2⟩
      rcases List.mem_cons.mp hcp with rfl | hcp2
      · simp [lookupProportion, List.find?]
      · have hne : (componentId hd.1 == componentId cp.1) = false := by
          refine beq_eq_false_iff_ne.mpr ?_
          intro hcontra
          refine hnotin ?_
          show componentId hd.1 ∈ List.map (fun cp => componentId cp.1) rest
          rw [hcontra]
          exact List.mem_map.mpr ⟨cp, hcp2, rfl⟩
        rw [lookupProportion, List.find?, hne]
        exact ih hk2 cp hcp2

/-! ## Concrete instances for closed witnesses and counterexamples -/

def cxSource : DataSource := ⟨["train"], fun _ => some 5⟩

def cxTaskA : Task := ⟨1, "A", cxSource, []⟩

def cxTaskB : Task := ⟨2, "B", cxSource, []⟩

def cxTaskC : Task := ⟨3, "C", cxSource, []⟩

def cxTaskP : Task := ⟨6, "P", cxSource, [Prep.user 7]⟩

def cxMixN : Mixture := Mixture.mk 4 "N" [(Sum.inl cxTaskB, 3), (Sum.inl cxTaskC, 1)]

def cxMixM : Mixture := Mixture.mk 5 "M" [(Sum.inl cxTaskA, 1), (Sum.inr cxMixN, 2)]

/-- A task whose preprocessor chain is longer than the seed space. -/
def bigChainTask : Task := ⟨0, "big", cxSource, (List.range 65536).map Prep.user⟩

/-- The direct sub-Mixture `cxMixN` is not (identity-wise) among the leaf
tasks of `cxMixM`. -/
theorem cxMixN_not_leaf :
    (cxMixM.leafTasks.any fun t => t.id == componentId (Sum.inr cxMixN)) = false := by
  rw [cxMixM, cxMixN]
  rw [any_leafTasks]
  simp [directTasks, childLeafTasks, any_leafTasks, cxTaskA, cxTaskB, cxTaskC,
    componentId, List.any_append]

theorem cxMixM_prop_of_cxMixN : cxMixM.getProportion (Sum.inr cxMixN) = 2 := by
  rw [getProportion_of_not_leaf _ _ cxMixN_not_leaf]
  rw [cxMixM]
  simp [lookupProportion, List.find?, Mixture.comps, componentId, cxTaskA, cxMixN]

/-! ## Claims -/

/-- C1: `Mixture.get_proportion` resolves nested proportions by
normalising each sub-Mixture's weights by its `total_proportion` before
scaling by the parent's weight, and returns raw direct weights for direct
Task components: for every Mixture M with direct Task A at weight 1 and
direct sub-Mixture N at weight 2, where N holds leaf Tasks B at weight 3
and C at weight 1 (all object identities distinct), M.get_proportion(B) =
2 * 3/4, M.get_proportion(C) = 2 * 1/4, and M.get_proportion(A) = 1. -/
theorem C1_nested_proportion_resolution (ia ib ic inn im : Nat)
    (na nb nc nn nm : String) (sa sb sc : DataSource) (pa pb pc : List Prep)
    (hab : ia ≠ ib) (hac : ia ≠ ic) (hbc : ib ≠ ic)
    (hbn : ib ≠ inn) (hcn : ic ≠ inn) :
    Mixture.getProportion
      (Mixture.mk im nm
        [(Sum.inl ⟨ia, na, sa, pa⟩, 1),
         (Sum.inr (Mixture.mk inn nn
            [(Sum.inl ⟨ib, nb, sb, pb⟩, 3), (Sum.inl ⟨ic, nc, sc, pc⟩, 1)]), 2)])
      (Sum.inl ⟨ib, nb, sb, pb⟩) = 2 * (3 / 4) ∧
    Mixture.getProportion
      (Mixture.mk im nm
        [(Sum.inl ⟨ia, na, sa, pa⟩, 1),
         (Sum.inr (Mixture.mk inn nn
            [(Sum.inl ⟨ib, nb, sb, pb⟩, 3), (Sum.inl ⟨ic, nc, sc, pc⟩, 1)]), 2)])
      (Sum.inl ⟨ic, nc, sc, pc⟩) = 2 * (1 / 4) ∧
    Mixture.getProportion
      (Mixture.mk im nm
        [(Sum.inl ⟨ia, na, sa, pa⟩, 1),
         (Sum.inr (Mixture.mk inn nn
            [(Sum.inl ⟨ib, nb, sb, pb⟩, 3), (Sum.inl ⟨ic, nc, sc, pc⟩, 1)]), 2)])
      (Sum.inl ⟨ia, na, sa, pa⟩) = 1 := by
  have hba : (ia == ib) = false := beq_eq_false_iff_ne.mpr hab
  have hca : (ia == ic) = false := beq_eq_false_iff_ne.mpr hac
  have hcb : (ic == ib) = false := beq_eq_false_iff_ne.mpr (fun h => hbc h.symm)
  have hbc2 : (ib == ic) = false := beq_eq_false_iff_ne.mpr hbc
  have hnb : (inn == ib) = false := beq_eq_false_iff_ne.mpr (fun h => hbn h.symm)
  have hnc : (inn == ic) = false := beq_eq_false_iff_ne.mpr (fun h => hcn h.symm)
  have hab2 : (ib == ia) = false := beq_eq_false_iff_ne.mpr (fun h => hab h.symm)
  have hac2 : (ic == ia) = false := beq_eq_false_iff_ne.mpr (fun h => hac h.symm)
  refine ⟨?_, ?_, ?_⟩
  · rw [Mixture.getProportion]
    rw [any_leafTasks]
    simp only [directTasks, childLeafTasks, List.filterMap_cons, List.filterMap_nil,
      List.append_nil, List.any_append, List.any_cons, List.any_nil,
      componentId, hba, Bool.false_or, Bool.or_false]
    rw [any_leafTasks]
    simp only [directTasks, childLeafTasks, List.filterMap_cons, List.filterMap_nil,
      List.append_nil, List.any_append, List.any_cons, List.any_nil, componentId,
      beq_self_eq_true, Bool.true_or, if_true]
    rw [subMixtureContrib, subMixtureContrib, subMixtureContrib]
    rw [any_leafTasks]
    simp only [directTasks, childLeafTasks, List.filterMap_cons, List.filterMap_nil,
      List.append_nil, List.any_append, List.any_cons, List.any_nil, componentId,
      beq_self_eq_true, Bool.true_or, if_true]
    rw [Mixture.getProportion]
    rw [any_leafTasks]
    simp only [directTasks, childLeafTasks, List.filterMap_cons, List.filterMap_nil,
      List.append_nil, List.any_append, List.any_cons, List.any_nil, componentId,
      beq_self_eq_true, Bool.true_or, if_true]
    rw [subMixtureContrib, subMixtureContrib, subMixtureContrib]
    simp only [lookupProportion, List.find?, componentId, hba, hcb, hnb,
      beq_self_eq_true, Option.map, Option.getD, Mixture.totalProportion,
      Mixture.comps, List.map_cons, List.map_nil, List.sum_cons, List.sum_nil]
    norm_num
  · rw [Mixture.getProportion]
    rw [any_leafTasks]
    simp only [directTasks, childLeafTasks, List.filterMap_cons, List.filterMap_nil,
      List.append_nil, List.any_append, List.any_cons, List.any_nil,
      componentId, hca, hbc2, Bool.false_or, Bool.or_false]
    rw [any_leafTasks]
    simp only [directTasks, childLeafTasks, List.filterMap_cons, List.filterMap_nil,
      List.append_nil, List.any_append, List.any_cons, List.any_nil, componentId,
      hbc2, beq_self_eq_true, Bool.false_or, Bool.true_or, Bool.or_true, if_true]
    rw [subMixtureContrib, subMixtureContrib, subMixtureContrib]
    rw [any_leafTasks]
    simp only [directTasks, childLeafTasks, List.filterMap_cons, List.filterMap_nil,
      List.append_nil, List.any_append, List.any_cons, List.any_nil, componentId,
      hbc2, beq_self_eq_true, Bool.false_or, Bool.true_or, Bool.or_true, if_true]
    rw [Mixture.getProportion]
    rw [any_leafTasks]
    simp only [directTasks, childLeafTasks, List.filterMap_cons, List.filterMap_nil,
      List.append_nil, List.any_append, List.any_cons, List.any_nil, componentId,
      hbc2, beq_self_eq_true, Bool.false_or, Bool.true_or, Bool.or_true, if_true]
    rw [subMixtureContrib, subMixtureContrib, subMixtureContrib]
    simp only [lookupProportion, List.find?, componentId, hca, hbc2, hnc,
      beq_self_eq_true, Option.map, Option.getD, Mixture.totalProportion,
      Mixture.comps, List.map_cons, List.map_nil, List.sum_cons, List.sum_nil]
    norm_num
  · rw [Mixture.getProportion]
    rw [any_leafTasks]
    simp only [directTasks, childLeafTasks, List.filterMap_cons, List.filterMap_nil,
      List.append_nil, List.any_append, List.any_cons, List.any_nil,
      componentId, beq_self_eq_true, Bool.true_or, if_true]
    rw [subMixtureContrib, subMixtureContrib, subMixtureContrib]
    rw [any_leafTasks]
    simp only [directTasks, childLeafTasks, List.filterMap_cons, List.filterMap_nil,
      List.append_nil, List.any_append, List.any_cons, List.any_nil, componentId,
      hab2, hac2, Bool.false_or, Bool.or_false]
    simp only [lookupProportion, List.find?, componentId, beq_self_eq_true,
      Option.map, Option.getD]
    norm_num

/-- Witness for C1 at the concrete instance with identities 1, 2, 3, 4, 5. -/
theorem C1_nested_proportion_resolution_witness :
    Mixture.getProportion
      (Mixture.mk 5 "M"
        [(Sum.inl ⟨1, "A", cxSource, []⟩, 1),
         (Sum.inr (Mixture.mk 4 "N"
            [(Sum.inl ⟨2, "B", cxSource, []⟩, 3), (Sum.inl ⟨3, "C", cxSource, []⟩, 1)]), 2)])
      (Sum.inl ⟨2, "B", cxSource, []⟩) = 2 * (3 / 4) ∧
    Mixture.getProportion
      (Mixture.mk 5 "M"
        [(Sum.inl ⟨1, "A", cxSource, []⟩, 1),
         (Sum.inr (Mixture.mk 4 "N"
            [(Sum.inl ⟨2, "B", cxSource, []⟩, 3), (Sum.inl ⟨3, "C", cxSource, []⟩, 1)]), 2)])
      (Sum.inl ⟨3, "C", cxSource, []⟩) = 2 * (1 / 4) ∧
    Mixture.getProportion
      (Mixture.mk 5 "M"
        [(Sum.inl ⟨1, "A", cxSource, []⟩, 1),
         (Sum.inr (Mixture.mk 4 "N"
            [(Sum.inl ⟨2, "B", cxSource, []⟩, 3), (Sum.inl ⟨3, "C", cxSource, []⟩, 1)]), 2)])
      (Sum.inl ⟨1, "A", cxSource, []⟩) = 1 :=
  C1_nested_proportion_resolution 1 2 3 4 5 "A" "B" "C" "N" "M" cxSource cxSource
    cxSource [] [] [] (by decide) (by decide) (by decide) (by decide) (by decide)

/-- C2 counterexample: the claim that no two preprocessor applications
ever receive the same derived seed is false: with the modelled splitter
(outputs in `randint(0, 2**16 - 1)` range, like `np.random.RandomState`),
starting seed 0, one epoch, and a chain of 2^16 preprocessors, two
preprocessor applications must share a seed (pigeonhole over the 2^16 - 1
possible seed values). -/
theorem C2_seed_distinctness_counterexample :
    ¬ (((getTaskLazyDataset splitSeedModel bigChainTask "train" none none false 0 none
        (some 1)).1).prepSeeds.Pairwise fun a b => a ≠ b) := by
  intro hp
  exact opSeeds_collision splitSeedModel (fun x => splitSeedModel_range x)
    bigChainTask "train" 0 none (by norm_num [bigChainTask]) hp

/-- C2 (amended): every derived preprocessor and shuffle seed is an
output of the splitter and hence lies in `[0, 2**16 - 1)`; consequently
pairwise distinctness cannot hold in general — for every splitter with
the `randint(0, 2**16 - 1)` output range, a preprocessor chain longer
than 2^16 - 1 forces two preprocessor applications to receive the same
derived seed, already within a single epoch. -/
theorem C2_seed_tree_range_and_collision (sf : Nat → Nat × Nat)
    (hsf : ∀ x, (sf x).1 < 65535 ∧ (sf x).2 < 65535) :
    (∀ (task : Task) (split : String) (fc : Option (List Prep)) (bs : Option Nat)
        (sh : Bool) (seed : Nat) (si : Option ShardInfo) (ne : Option Nat),
      (∀ v ∈ ((getTaskLazyDataset sf task split fc bs sh seed si ne).1).prepSeeds,
        v < 65535) ∧
      (∀ v ∈ ((getTaskLazyDataset sf task split fc bs sh seed si ne).1).shuffleSeeds,
        v < 65535)) ∧
    (∀ (task : Task) (split : String) (seed : Nat) (si : Option ShardInfo),
      task.preprocessors.length > 65535 →
      ¬ ((getTaskLazyDataset sf task split none none false seed si
          (some 1)).1).prepSeeds.Nodup) := by
  constructor
  · intro task split fc bs sh seed si ne
    constructor
    · intro v hv
      rcases mem_prepSeeds_getTaskLazyDataset sf task split fc bs sh seed si ne v hv
        with ⟨y, hy | hy⟩
      · exact hy ▸ (hsf y).1
      · exact hy ▸ (hsf y).2
    · intro v hv
      rcases mem_shuffleSeeds_getTaskLazyDataset sf task split fc bs sh seed si ne v hv
        with ⟨y, hy | hy⟩
      · exact hy ▸ (hsf y).1
      · exact hy ▸ (hsf y).2
  · intro task split seed si hk
    exact opSeeds_collision sf hsf task split seed si hk

/-- Witness for C2 at the modelled splitter: the range bound holds for a
concrete shuffled 3-epoch construction, and the collision occurs for the
2^16-long chain. -/
theorem C2_seed_tree_range_and_collision_witness :
    (∀ v ∈ ((getTaskLazyDataset splitSeedModel cxTaskP "train" none none true 0 none
        (some 3)).1).shuffleSeeds, v < 65535) ∧
    ¬ (((getTaskLazyDataset splitSeedModel bigChainTask "train" none none false 0 none
        (some 1)).1).prepSeeds.Nodup) :=
  ⟨((C2_seed_tree_range_and_collision splitSeedModel
      (fun x => splitSeedModel_range x)).1 cxTaskP "train" none none true 0 none
      (some 3)).2,
    (C2_seed_tree_range_and_collision splitSeedModel
      (fun x => splitSeedModel_range x)).2 bigChainTask "train" 0 none
      (by norm_num [bigChainTask])⟩

/-- C3: dataset construction is deterministic in the configuration:
`Task.get_dataset` never mutates the task (it extends a copy of the
preprocessor chain), so an immediately repeated identical call returns an
identical loader descriptor; mixture construction calls every per-task
build with `feature_converter=None, batch_size=None`, leaving every leaf
task unchanged, so repeated mixture construction sees identical state and
yields identical results. Seeds are integers here: every derived seed
comes from the deterministic splitter. -/
theorem C3_get_dataset_determinism (sf : Nat → Nat × Nat) (t : Task) (m : Mixture)
    (split : String) (fc : Option (List Prep)) (bs : Option Nat) (sh : Bool)
    (seedT : Option Nat) (seedM : Nat) (si : Option ShardInfo) (ne : Option Nat) :
    (t.getDataset split fc bs sh seedT si ne).2 = t ∧
    Task.getDataset ((t.getDataset split fc bs sh seedT si ne).2) split fc bs sh
        seedT si ne =
      t.getDataset split fc bs sh seedT si ne ∧
    (m.getLazyDataset sf split fc bs sh seedM si ne).2 = m.leafTasks ∧
    (m.getDataset sf split fc bs sh seedM si ne).2 = m.leafTasks ∧
    (getTaskLazyDataset sf t split none none sh seedM si ne).2 = t := by
  refine ⟨rfl, rfl, getLazyDataset_snd sf m split fc bs sh seedM si ne, ?_, ?_⟩
  · show (m.getLazyDataset sf split fc bs sh seedM si ne).2 = m.leafTasks
    exact getLazyDataset_snd sf m split fc bs sh seedM si ne
  · exact getTaskLazyDataset_noMutation sf t split sh seedM si ne

/-- C4: for a combined operation chain of length k, `get_dataset_by_step`
returns exactly k+1 entries; entry i is the sample re-materialised from
scratch with exactly the first i operations of the chain (entry 0 is the
raw sample with no operations). -/
theorem C4_by_step_trace (t : Task) (nr : Int) (split : String)
    (fc : Option (List Prep)) (bs : Option Nat) (sh : Bool) (seed : Option Nat) :
    (t.getDatasetByStep nr split fc bs sh seed).length =
      (t.allStepOps fc bs).length + 1 ∧
    ∀ i ≤ (t.allStepOps fc bs).length,
      (t.getDatasetByStep nr split fc bs sh seed)[i]? =
        some (loadData t.id split (byStepSampler nr sh seed)
          ((t.allStepOps fc bs).take i)) := by
  rw [Task.getDatasetByStep.eq_def]
  by_cases h : (t.allStepOps fc bs).isEmpty
  · have hnil : t.allStepOps fc bs = [] := List.isEmpty_iff.mp h
    simp only [h, if_true, hnil]
    constructor
    · rfl
    · intro i hi
      have hz : i = 0 := by simpa using hi
      subst hz
      simp [loadData]
  · have hne : t.allStepOps fc bs ≠ [] := fun hc => h (List.isEmpty_iff.mpr hc)
    rw [if_neg h]
    constructor
    · simp [length_stepsAccum]
    · intro i hi
      cases i with
      | zero => simp [loadData]
      | succ i =>
          rw [List.getElem?_cons_succ]
          rw [getElem_stepsAccum t.id split (byStepSampler nr sh seed)
            (t.allStepOps fc bs) [] i (by omega)]
          simp

/-- Witness for C4: a task with one preprocessor yields 2 steps, step 1
applying exactly that preprocessor. -/
theorem C4_by_step_trace_witness :
    (cxTaskP.getDatasetByStep 2 "train" none none false (some 0)).length = 2 ∧
    (cxTaskP.getDatasetByStep 2 "train" none none false (some 0))[1]? =
      some (loadData 6 "train" (byStepSampler 2 false (some 0)) [Prep.user 7]) := by
  have h := C4_by_step_trace cxTaskP 2 "train" none none false (some 0)
  refine ⟨?_, ?_⟩
  · have h1 := h.1
    simpa [Task.allStepOps, cxTaskP, truthyN] using h1
  · have h2 := h.2 1 (by simp [Task.allStepOps, cxTaskP, truthyN])
    simpa [Task.allStepOps, cxTaskP, truthyN] using h2

/-- C5: `get_dataset_by_step` clamps `num_records` without raising: below
1 it behaves exactly as if `num_records` were
`DEFAULT_NUM_RECORDS_TO_INSPECT`; above `MAX_NUM_RECORDS_TO_INSPECT` it
behaves exactly as if it were `MAX_NUM_RECORDS_TO_INSPECT`; values in
`[1, MAX]` are used unchanged in the sampler of every step. -/
theorem C5_num_records_clamping (t : Task) (nr : Int) (split : String)
    (fc : Option (List Prep)) (bs : Option Nat) (sh : Bool) (seed : Option Nat) :
    (nr < 1 →
      t.getDatasetByStep nr split fc bs sh seed =
        t.getDatasetByStep DEFAULT_NUM_RECORDS_TO_INSPECT split fc bs sh seed) ∧
    (nr > MAX_NUM_RECORDS_TO_INSPECT →
      t.getDatasetByStep nr split fc bs sh seed =
        t.getDatasetByStep MAX_NUM_RECORDS_TO_INSPECT split fc bs sh seed) ∧
    (1 ≤ nr → nr ≤ MAX_NUM_RECORDS_TO_INSPECT →
      ∀ s ∈ t.getDatasetByStep nr split fc bs sh seed,
        s.sampler.numRecords = some nr) := by
  refine ⟨?_, ?_, ?_⟩
  · intro h
    refine getDatasetByStep_congr t split fc bs sh seed ?_
    rw [clamp_of_lt_one h,
      clamp_of_in_range (by norm_num [DEFAULT_NUM_RECORDS_TO_INSPECT])
        (by norm_num [DEFAULT_NUM_RECORDS_TO_INSPECT, MAX_NUM_RECORDS_TO_INSPECT])]
  · intro h
    refine getDatasetByStep_congr t split fc bs sh seed ?_
    rw [clamp_of_gt_max h,
      clamp_of_in_range (by norm_num [MAX_NUM_RECORDS_TO_INSPECT]) le_rfl]
  · intro h1 h2 s hs
    have hsamp : s.sampler = byStepSampler nr sh seed := by
      rw [Task.getDatasetByStep.eq_def] at hs
      by_cases h : (t.allStepOps fc bs).isEmpty
      · rw [if_pos h] at hs
        rcases List.mem_singleton.mp hs with rfl
        rfl
      · rw [if_neg h] at hs
        rcases List.mem_cons.mp hs with rfl | hs2
        · rfl
        · exact sampler_stepsAccum t.id split (byStepSampler nr sh seed)
            (t.allStepOps fc bs) [] s hs2
    rw [hsamp]
    show some (clampNumRecords nr) = some nr
    rw [clamp_of_in_range h1 h2]

/-- Witness for C5: `num_records=0` behaves as the default, `10000`
clamps to the maximum, and `7` is used unchanged. -/
theorem C5_num_records_clamping_witness :
    cxTaskP.getDatasetByStep 0 "train" none none false (some 0) =
      cxTaskP.getDatasetByStep DEFAULT_NUM_RECORDS_TO_INSPECT "train" none none false
        (some 0) ∧
    cxTaskP.getDatasetByStep 10000 "train" none none false (some 0) =
      cxTaskP.getDatasetByStep MAX_NUM_RECORDS_TO_INSPECT "train" none none false
        (some 0) ∧
    ∀ s ∈ cxTaskP.getDatasetByStep 7 "train" none none false (some 0),
      s.sampler.numRecords = some 7 :=
  ⟨(C5_num_records_clamping cxTaskP 0 "train" none none false (some 0)).1
      (by norm_num),
    (C5_num_records_clamping cxTaskP 10000 "train" none none false (some 0)).2.1
      (by norm_num [MAX_NUM_RECORDS_TO_INSPECT]),
    (C5_num_records_clamping cxTaskP 7 "train" none none false (some 0)).2.2
      (by norm_num) (by norm_num [MAX_NUM_RECORDS_TO_INSPECT])⟩

/-- C6: Mixture construction fails exactly when the tasks and proportions
sequences have different lengths or two components share an identity
hash; otherwise it succeeds and stores a one-to-one mapping from
component identity to proportion (looking any stored component's hash up
yields its own proportion). -/
theorem C6_mixture_construction_validation (uid : Nat) (name : String)
    (tasks : List Component) (proportions : List ℚ) :
    ((tasks.length ≠ proportions.length ∨ ¬ (tasks.map componentId).Nodup) →
      ∃ e, mkMixture uid name tasks proportions = Except.error e) ∧
    (tasks.length = proportions.length → (tasks.map componentId).Nodup →
      mkMixture uid name tasks proportions =
          Except.ok (Mixture.mk uid name (tasks.zip proportions)) ∧
        ((tasks.zip proportions).map fun cp => componentId cp.1).Nodup ∧
        ∀ cp ∈ tasks.zip proportions,
          lookupProportion (tasks.zip proportions) (componentId cp.1) = some cp.2) := by
  have hcompose : (tasks.zip proportions).map (fun cp => componentId cp.1) =
      ((tasks.zip proportions).map Prod.fst).map componentId := by
    rw [List.map_map]
    rfl
  constructor
  · intro h
    simp only [mkMixture]
    by_cases hlen : tasks.length ≠ proportions.length
    · rw [if_pos hlen]
      exact ⟨_, rfl⟩
    · rw [if_neg hlen]
      have hnodup : ¬ (tasks.map componentId).Nodup := h.resolve_left hlen
      have hd : (tasks.map componentId).dedup.length ≠ tasks.length := by
        intro hc
        refine hnodup (dedup_length_eq_iff.mp ?_)
        rw [hc, List.length_map]
      rw [if_pos hd]
      exact ⟨_, rfl⟩
  · intro hlen hnodup
    have hfst : (tasks.zip proportions).map Prod.fst = tasks :=
      List.map_fst_zip tasks proportions (le_of_eq hlen)
    have hkeys : ((tasks.zip proportions).map fun cp => componentId cp.1).Nodup := by
      rw [hcompose, hfst]
      exact hnodup
    refine ⟨?_, hkeys, lookup_of_nodup_keys _ hkeys⟩
    simp only [mkMixture]
    rw [if_neg (not_not_intro hlen)]
    have hd : (tasks.map componentId).dedup.length = tasks.length :=
      (dedup_length_eq_iff.mpr hnodup).trans (List.length_map tasks componentId)
    rw [if_neg (not_not_intro hd)]

/-- Witness for C6: a length mismatch fails; two distinct tasks with
equal proportions construct successfully and store the zipped mapping. -/
theorem C6_mixture_construction_validation_witness :
    (∃ e, mkMixture 9 "bad" [Sum.inl cxTaskA, Sum.inl cxTaskB] [1 / 2] =
      Except.error e) ∧
    mkMixture 9 "good" [Sum.inl cxTaskA, Sum.inl cxTaskB] [1 / 2, 1 / 2] =
      Except.ok (Mixture.mk 9 "good"
        ([Sum.inl cxTaskA, Sum.inl cxTaskB].zip [1 / 2, 1 / 2])) :=
  ⟨(C6_mixture_construction_validation 9 "bad" [Sum.inl cxTaskA, Sum.inl cxTaskB]
      [1 / 2]).1 (Or.inl (by simp)),
    ((C6_mixture_construction_validation 9 "good" [Sum.inl cxTaskA, Sum.inl cxTaskB]
      [1 / 2, 1 / 2]).2 (by simp) (by simp [cxTaskA, cxTaskB, componentId])).1⟩

/-- C7: `Mixture.get_lazy_dataset` rejects `num_epochs=None` with
`shuffle=True` before building any lazy graph; with `num_epochs=None` and
`shuffle=False` the finished mixed dataset is wrapped in an
infinite-repeat adapter as the final step. -/
theorem C7_infinite_repeat_guard (sf : Nat → Nat × Nat) (m : Mixture)
    (split : String) (fc : Option (List Prep)) (bs : Option Nat) (seed : Nat)
    (si : Option ShardInfo) :
    (m.getLazyDataset sf split fc bs true seed si none).1 =
      Except.error
        "Repeating indefinitely with shuffling turned on is not supported." ∧
    (m.getLazyDataset sf split fc bs false seed si none).1 =
      Except.ok (LazyDS.repeatInf (m.mixPostMix sf split fc bs false seed si none)) := by
  constructor
  · rw [Mixture.getLazyDataset.eq_def]
    simp
  · rw [Mixture.getLazyDataset.eq_def]
    simp

/-- C8 counterexample: the claim that `get_proportion` returns 0 for
every argument outside `leaf_tasks` is false for a direct sub-Mixture
argument: `get_proportion` adds the direct proportion for the argument's
hash before the leaf-membership early return, so the direct sub-Mixture
`cxMixN` (weight 2, not a leaf task of `cxMixM`) yields 2, not 0. -/
theorem C8_nonleaf_zero_counterexample :
    (cxMixM.leafTasks.any fun t => t.id == componentId (Sum.inr cxMixN)) = false ∧
    cxMixM.getProportion (Sum.inr cxMixN) = 2 ∧
    cxMixM.getProportion (Sum.inr cxMixN) ≠ 0 :=
  ⟨cxMixN_not_leaf, cxMixM_prop_of_cxMixN, by
    rw [cxMixM_prop_of_cxMixN]
    norm_num⟩

/-- C8 (amended): for every argument whose identity is not among
`leaf_tasks`, `get_proportion` returns the argument's direct proportion
in this Mixture (its stored weight if it is a direct component — in
particular a direct sub-Mixture gets its own weight — and 0 if its hash
is not a component key at all). -/
theorem C8_nonleaf_direct_weight (m : Mixture) (x : Component)
    (h : (m.leafTasks.any fun t => t.id == componentId x) = false) :
    m.getProportion x = (lookupProportion m.comps (componentId x)).getD 0 ∧
    (lookupProportion m.comps (componentId x) = none → m.getProportion x = 0) := by
  refine ⟨getProportion_of_not_leaf m x h, ?_⟩
  intro hn
  rw [getProportion_of_not_leaf m x h, hn]
  rfl

/-- Witness for C8 at the concrete mixture: the sub-Mixture argument is
not a leaf task, and `get_proportion` equals its direct weight. -/
theorem C8_nonleaf_direct_weight_witness :
    cxMixM.getProportion (Sum.inr cxMixN) =
      (lookupProportion cxMixM.comps (componentId (Sum.inr cxMixN))).getD 0 ∧
    (lookupProportion cxMixM.comps (componentId (Sum.inr cxMixN)) = none →
      cxMixM.getProportion (Sum.inr cxMixN) = 0) :=
  C8_nonleaf_direct_weight cxMixM (Sum.inr cxMixN) cxMixN_not_leaf

/-- C9: `leaf_tasks` is sorted by task name, duplicate-free on object
identities, contained in the transitively reachable task set, and covers
exactly the reachable task identities (a deduplicated, name-sorted view
of the set of all Tasks transitively reachable through nested Mixtures).
As a pure function of the (construction-fixed) components, repeated reads
trivially return the same sequence. -/
theorem C9_leaf_tasks_sorted_dedup_reachable (m : Mixture) :
    m.leafTasks.Pairwise (fun a b => a.name ≤ b.name) ∧
    (m.leafTasks.map Task.id).Nodup ∧
    (∀ x ∈ m.leafTasks, x ∈ m.reachableTasksSpec) ∧
    (∀ c : Nat, (∃ t ∈ m.leafTasks, t.id = c) ↔
      ∃ t ∈ m.reachableTasksSpec, t.id = c) := by
  refine ⟨pairwise_leafTasks m, nodup_ids_leafTasks m, leafTasks_sub_reach m, ?_⟩
  intro c
  constructor
  · rintro ⟨t, ht, rfl⟩
    exact ⟨t, leafTasks_sub_reach m t ht, rfl⟩
  · exact reach_id_in_leafTasks m c

/-- Witness for C9 at the concrete nested mixture. -/
theorem C9_leaf_tasks_sorted_dedup_reachable_witness :
    cxMixM.leafTasks.Pairwise (fun a b => a.name ≤ b.name) ∧
    (cxMixM.leafTasks.map Task.id).Nodup ∧
    (∀ x ∈ cxMixM.leafTasks, x ∈ cxMixM.reachableTasksSpec) ∧
    (∀ c : Nat, (∃ t ∈ cxMixM.leafTasks, t.id = c) ↔
      ∃ t ∈ cxMixM.reachableTasksSpec, t.id = c) :=
  C9_leaf_tasks_sorted_dedup_reachable cxMixM

/-- C10: `get_task_lazy_dataset` extends the passed task's own
preprocessor list in place with the feature-converter transforms and/or a
`grain.Batch` operation, and this growth persists after the call — only
when the feature converter is `None` and `batch_size` is unset does the
task stay unchanged (as in every call made from `get_lazy_dataset`); a
repeated call keeps lengthening the chain; `Task.get_dataset` extends a
copy and never mutates the task. -/
theorem C10_task_mutation (sf : Nat → Nat × Nat) (t : Task) (split : String)
    (fc : Option (List Prep)) (bs : Option Nat) (sh : Bool) (seed : Nat)
    (si : Option ShardInfo) (ne : Option Nat) (seedD : Option Nat) :
    ((getTaskLazyDataset sf t split fc bs sh seed si ne).2).preprocessors =
      t.preprocessors ++ fc.getD [] ++
        (if truthyN bs then [Prep.batchT (bs.getD 0) none] else []) ∧
    (fc = none → truthyN bs = false →
      (getTaskLazyDataset sf t split fc bs sh seed si ne).2 = t) ∧
    ((fc.getD [] ≠ [] ∨ truthyN bs = true) →
      t.preprocessors.length <
        ((getTaskLazyDataset sf t split fc bs sh seed si ne).2).preprocessors.length ∧
      ((getTaskLazyDataset sf ((getTaskLazyDataset sf t split fc bs sh seed si ne).2)
          split fc bs sh seed si ne).2).preprocessors.length >
        ((getTaskLazyDataset sf t split fc bs sh seed si ne).2).preprocessors.length) ∧
    (t.getDataset split fc bs sh seedD si ne).2 = t := by
  refine ⟨?_, ?_, ?_, rfl⟩
  · rw [getTaskLazyDataset_snd]
  · intro h1 h2
    subst h1
    rw [getTaskLazyDataset_snd]
    simp [h2]
  · intro h
    have hlen : 0 < (fc.getD []).length +
        (if truthyN bs then [Prep.batchT (bs.getD 0) none] else []).length := by
      rcases h with h | h
      · have := List.length_pos.mpr h
        omega
      · rw [h]
        simp
    constructor
    · rw [getTaskLazyDataset_snd]
      simp only [List.length_append]
      omega
    · rw [getTaskLazyDataset_snd, getTaskLazyDataset_snd]
      simp only [List.length_append]
      omega

/-- Witness for C10: with a one-transform feature converter and batch
size 2 the task's chain grows by two operations and a repeated call grows
it again; with neither, the task is unchanged. -/
theorem C10_task_mutation_witness :
    ((getTaskLazyDataset splitSeedModel cxTaskP "train" (some [Prep.user 9]) (some 2)
        false 0 none (some 1)).2).preprocessors =
      cxTaskP.preprocessors ++ [Prep.user 9] ++ [Prep.batchT 2 none] ∧
    (getTaskLazyDataset splitSeedModel cxTaskA "train" none none false 0 none
        (some 1)).2 = cxTaskA ∧
    cxTaskP.preprocessors.length <
      ((getTaskLazyDataset splitSeedModel cxTaskP "train" (some [Prep.user 9]) (some 2)
        false 0 none (some 1)).2).preprocessors.length := by
  refine ⟨?_, ?_, ?_⟩
  · have h := (C10_task_mutation splitSeedModel cxTaskP "train" (some [Prep.user 9])
      (some 2) false 0 none (some 1) (some 0)).1
    simpa [truthyN] using h
  · exact (C10_task_mutation splitSeedModel cxTaskA "train" none none false 0 none
      (some 1) (some 0)).2.1 rfl rfl
  · exact ((C10_task_mutation splitSeedModel cxTaskP "train" (some [Prep.user 9])
      (some 2) false 0 none (some 1) (some 0)).2.2.1 (Or.inl (by simp))).1

end Airio
